import Mathlib

/-!
# Wallet-system: a verification development

A shallow embedding of the core of the `Wallet-system` repository — the
transfer-intake path (`WalletService.submitTransfer`), the transaction
executor (`TransactionProcessorService.executeSingleTransaction` with its
helpers `failTransaction` and `revertLockOnAccount`), and the block builder
(`BlockService.calculateBlockHash`, `calculateMerkleRoot`,
`createBlockWithTypeORM`) — together with theorems settling the
specification's claims about conservation, lock discipline, error ordering,
Merkle commitments, idempotence and chain linkage.

Modelling conventions:
* `decimal.js` amounts are modelled as exact integers (`ℤ`) in minor units at
  scale 10^8; addition, subtraction and comparison of the `(18,8)` decimals
  used by the code are exact, so they correspond exactly to `ℤ` operations.
* Database rows live in plain lists; `save` replaces the row with the matching
  primary key, `findOne` is `List.find?`.  A store transaction is modelled by
  running the body on a working copy of the state; the work becomes durable
  only where the source calls `commitTransaction` — a query runner released
  with the transaction still open does not durably apply its writes.
* `Date` values appear only through `toISOString()`, so timestamps are
  modelled as the serialized string.
* Strings hashed by the code are ASCII, for which the UTF-8 bytes are exactly
  the code points; JavaScript's default `Array.prototype.sort()` comparison
  (UTF-16 code-unit lexicographic) coincides with code-point lexicographic
  order on such strings.
-/

/-! ## SHA-256 (Node `createHash('sha256')`), over `Nat` words -/

namespace SHA256

def w32 : Nat := 4294967296

def rotr (n x : Nat) : Nat := ((x >>> n) ||| (x <<< (32 - n))) % w32

def smallSigma0 (x : Nat) : Nat := (rotr 7 x) ^^^ (rotr 18 x) ^^^ (x >>> 3)
def smallSigma1 (x : Nat) : Nat := (rotr 17 x) ^^^ (rotr 19 x) ^^^ (x >>> 10)
def bigSigma0 (x : Nat) : Nat := (rotr 2 x) ^^^ (rotr 13 x) ^^^ (rotr 22 x)
def bigSigma1 (x : Nat) : Nat := (rotr 6 x) ^^^ (rotr 11 x) ^^^ (rotr 25 x)

/-- The 64 SHA-256 round constants, written in decimal. -/
def K : List Nat :=
  [1116352408, 1899447441, 3049323471, 3921009573, 961987163, 1508970993,
   2453635748, 2870763221, 3624381080, 310598401, 607225278, 1426881987,
   1925078388, 2162078206, 2614888103, 3248222580, 3835390401, 4022224774,
   264347078, 604807628, 770255983, 1249150122, 1555081692, 1996064986,
   2554220882, 2821834349, 2952996808, 3210313671, 3336571891, 3584528711,
   113926993, 338241895, 666307205, 773529912, 1294757372, 1396182291,
   1695183700, 1986661051, 2177026350, 2456956037, 2730485921, 2820302411,
   3259730800, 3345764771, 3516065817, 3600352804, 4094571909, 275423344,
   430227734, 506948616, 659060556, 883997877, 958139571, 1322822218,
   1537002063, 1747873779, 1955562222, 2024104815, 2227730452, 2361852424,
   2428436474, 2756734187, 3204031479, 3329325298]

/-- The initial SHA-256 hash state, written in decimal. -/
def H0 : List Nat :=
  [1779033703, 3144134277, 1013904242, 2773480762,
   1359893119, 2600822924, 528734635, 1541459225]

/-- Extend a 16-word block to the full 64-word message schedule. -/
def extendSchedule (acc : List Nat) : Nat → List Nat
  | 0 => acc
  | n + 1 =>
    let t := acc.length
    let nw := (smallSigma1 (acc.getD (t - 2) 0) + acc.getD (t - 7) 0 +
               smallSigma0 (acc.getD (t - 15) 0) + acc.getD (t - 16) 0) % w32
    extendSchedule (acc ++ [nw]) n

structure HState where
  a : Nat
  b : Nat
  c : Nat
  d : Nat
  e : Nat
  f : Nat
  g : Nat
  h : Nat

def compressStep (s : HState) (kw : Nat × Nat) : HState :=
  let t1 := (s.h + bigSigma1 s.e + ((s.e &&& s.f) ^^^ ((s.e ^^^ (w32 - 1)) &&& s.g)) +
             kw.1 + kw.2) % w32
  let t2 := (bigSigma0 s.a + ((s.a &&& s.b) ^^^ (s.a &&& s.c) ^^^ (s.b &&& s.c))) % w32
  { a := (t1 + t2) % w32, b := s.a, c := s.b, d := s.c,
    e := (s.d + t1) % w32, f := s.e, g := s.f, h := s.g }

def processChunk (hs : List Nat) (chunk : List Nat) : List Nat :=
  let ws := extendSchedule chunk 48
  let s0 : HState :=
    { a := hs.getD 0 0, b := hs.getD 1 0, c := hs.getD 2 0, d := hs.getD 3 0,
      e := hs.getD 4 0, f := hs.getD 5 0, g := hs.getD 6 0, h := hs.getD 7 0 }
  let s := (K.zip ws).foldl compressStep s0
  [(hs.getD 0 0 + s.a) % w32, (hs.getD 1 0 + s.b) % w32, (hs.getD 2 0 + s.c) % w32,
   (hs.getD 3 0 + s.d) % w32, (hs.getD 4 0 + s.e) % w32, (hs.getD 5 0 + s.f) % w32,
   (hs.getD 6 0 + s.g) % w32, (hs.getD 7 0 + s.h) % w32]

/-- Big-endian bytes of `n`, `k` bytes wide. -/
def beBytes (k n : Nat) : List Nat :=
  match k with
  | 0 => []
  | k + 1 => beBytes k (n / 256) ++ [n % 256]

def padBytes (msg : List Nat) : List Nat :=
  let len := msg.length
  let z := (119 - (len % 64)) % 64
  msg ++ [0x80] ++ List.replicate z 0 ++ beBytes 8 (len * 8)

def toWords : List Nat → List Nat
  | a :: b :: c :: d :: rest => (((a * 256 + b) * 256 + c) * 256 + d) :: toWords rest
  | _ => []

/-- Consume the padded word stream sixteen words at a time, compressing each chunk. -/
def foldChunks (hs : List Nat) (buf : List Nat) : List Nat → List Nat
  | [] => hs
  | wd :: ws =>
    let buf1 := buf ++ [wd]
    if buf1.length = 16 then foldChunks (processChunk hs buf1) [] ws
    else foldChunks hs buf1 ws

def hexDigit (n : Nat) : Char := if n < 10 then Char.ofNat (48 + n) else Char.ofNat (87 + n)

def wordToHex (w : Nat) : List Char :=
  [hexDigit ((w / 0x10000000) % 16), hexDigit ((w / 0x1000000) % 16),
   hexDigit ((w / 0x100000) % 16), hexDigit ((w / 0x10000) % 16),
   hexDigit ((w / 0x1000) % 16), hexDigit ((w / 0x100) % 16),
   hexDigit ((w / 0x10) % 16), hexDigit (w % 16)]

end SHA256

/-- SHA-256 of an ASCII string, hex-encoded in lower case, matching Node's
`createHash('sha256').update(data).digest('hex')` (the UTF-8 bytes of an ASCII
string are its code points).  Checked against the standard test vectors: the
empty string, `"a"`, `"abc"` and the two-chunk `"a"`-times-64 input all give
the published digests. -/
def sha256 (s : String) : String :=
  let bytes := s.data.map Char.toNat
  let hs := SHA256.foldChunks SHA256.H0 [] (SHA256.toWords (SHA256.padBytes bytes))
  String.mk (hs.flatMap SHA256.wordToHex)

/-! ## JavaScript default string sort

`Array.prototype.sort()` without a comparator sorts lexicographically by
UTF-16 code units; on the ASCII strings the block builder sorts this is
code-point lexicographic order, i.e. the lexicographic order on `.data`. -/

def jsLe (a b : String) : Prop := a.data ≤ b.data

instance : DecidableRel jsLe := fun a b => by unfold jsLe; infer_instance

instance : IsTrans String jsLe := ⟨fun _ _ _ h1 h2 => le_trans h1 h2⟩

instance : IsTotal String jsLe := ⟨fun a b => le_total a.data b.data⟩

instance : IsAntisymm String jsLe := ⟨fun a b h1 h2 => by
  cases a; cases b; exact congrArg String.mk (le_antisymm h1 h2)⟩

/-- `hs.sort()` in JavaScript (the in-place mutation is irrelevant to the
values computed from the sorted list). -/
def sortStrings (l : List String) : List String := l.insertionSort jsLe

/-! ## BlockService: Merkle root and block hash -/

/-- One level of the Merkle reduction: adjacent pairs are concatenated and
hashed; at an odd count the last element is paired with itself
(`right = left`). -/
def merklePairs : List String → List String
  | [] => []
  | [x] => [sha256 (x ++ x)]
  | x :: y :: rest => sha256 (x ++ y) :: merklePairs rest

/-- The `while (currentLevel.length > 1)` loop, run with explicit fuel so the
definition stays structurally recursive.  Each pass at least halves a level of
length ≥ 2, so fuel `l.length` always suffices (`merkleLevels_length_le`). -/
def merkleLevels : Nat → List String → List String
  | 0, level => level
  | fuel + 1, level =>
    if level.length ≤ 1 then level else merkleLevels fuel (merklePairs level)

/-- Run the pairwise reduction to a single element and return it
(`currentLevel[0]`). -/
def merkleReduce (l : List String) : String := (merkleLevels l.length l).headD ""

/-- `BlockService.calculateMerkleRoot`: empty input hashes the empty string, a
single hash is hashed once by itself, and otherwise the sorted list is reduced
pairwise. -/
def calculateMerkleRoot (transactionSystemHashes : List String) : String :=
  match transactionSystemHashes with
  | [] => sha256 ""
  | [h] => sha256 h
  | hs => merkleReduce (sortStrings hs)

/-- The reference Merkle computation as the specification words it (§4.3 step
4): sort the hashes ascending lexicographically, then repeatedly replace each
level by the pairwise SHA-256 of concatenated hex strings, duplicating the
last element at any level with an odd node count, until a single node remains;
an empty input yields `SHA256("")`. -/
def specMerkleRoot (transactionSystemHashes : List String) : String :=
  match transactionSystemHashes with
  | [] => sha256 ""
  | hs => merkleReduce (sortStrings hs)

/-- `BlockService.calculateBlockHash`: SHA-256 of the height string, the
ISO-serialized timestamp, the previous hash (or the genesis placeholder) and
the concatenation of the sorted transaction hashes. -/
def calculateBlockHash (height : String) (timestamp : String)
    (previousBlockHash : Option String)
    (transactionSystemHashes : List String) : String :=
  sha256 (height ++ timestamp ++
    (match previousBlockHash with
     | some h => h
     | none => "GENESIS_BLOCK_PREV_HASH_0000000000000") ++
    String.join (sortStrings transactionSystemHashes))

/-! ## BlockService: block creation and chain linkage -/

/-- A row of the `blocks` table.  `height` is stored as a `bigint` string and
handled through `BigInt`, which round-trips exactly, so it is modelled as a
natural number; the timestamp is modelled by its ISO serialization. -/
structure Block where
  id : String
  height : Nat
  blockHash : String
  previousBlockHash : Option String
  timestamp : String
  merkleRoot : String
deriving DecidableEq

/-- One step of `ORDER BY height DESC LIMIT 1`: keep the row with the larger
height. -/
def pickLatest : Option Block → Block → Option Block
  | none, b => some b
  | some m, b => if m.height < b.height then some b else some m

/-- `BlockService.getLatestBlock`: the highest-height block, if any. -/
def getLatestBlock (blocks : List Block) : Option Block :=
  blocks.foldl pickLatest none

/-- `BlockService.createBlockWithTypeORM`: refuse an empty batch, read the
latest block, link `height` and `previousBlockHash` to it (genesis values when
there is none), hash, and insert the new block row.  The fresh row id and the
`new Date()` timestamp are nondeterministic inputs passed explicitly;
`processedTransactions` carries `(id, systemHash)` pairs. -/
def createBlockWithTypeORM (blocks : List Block)
    (processedTransactions : List (String × String))
    (newId : String) (timestamp : String) :
    Except String (List Block × Block) :=
  if processedTransactions.length = 0 then
    .error "Cannot create an empty block."
  else
    let latestBlock := getLatestBlock blocks
    let previousBlockHash := latestBlock.map Block.blockHash
    let newHeight := match latestBlock with
      | some lb => lb.height + 1
      | none => 0
    let transactionSystemHashes := processedTransactions.map Prod.snd
    let blockHash :=
      calculateBlockHash (toString newHeight) timestamp previousBlockHash
        transactionSystemHashes
    let merkleRoot := calculateMerkleRoot transactionSystemHashes
    let newBlock : Block :=
      { id := newId, height := newHeight, blockHash := blockHash,
        previousBlockHash := previousBlockHash, timestamp := timestamp,
        merkleRoot := merkleRoot }
    .ok (blocks ++ [newBlock], newBlock)

/-- The chain-shape invariant: block heights are pairwise distinct and cover
exactly `0 … length-1`, and every non-genesis block's `previousBlockHash` is
the `blockHash` of a block at the preceding height. -/
def ChainOK (blocks : List Block) : Prop :=
  (blocks.map Block.height).Nodup ∧
  (∀ b ∈ blocks, b.height < blocks.length) ∧
  (∀ b ∈ blocks, 0 < b.height →
    ∃ p ∈ blocks, p.height = b.height - 1 ∧ b.previousBlockHash = some p.blockHash)

instance (blocks : List Block) : Decidable (ChainOK blocks) := by
  unfold ChainOK; infer_instance

/-! ## Ledger data model

`Account` rows carry the owning wallet's `userId` (the `wallet` relation
flattened, which is all the core reads from it).  `balance` and `locked` are
`decimal.js` values modelled as exact integers in minor units; `nonce` is a
`bigint` column handled through `BigInt(...)`, which round-trips exactly, so
it is a natural number.  Store rows live in lists; `save` replaces the row
with the matching primary key and `findOne` is `List.find?`. -/

inductive TransactionStatus
  | PENDING
  | PROCESSING
  | CONFIRMED
  | FAILED
  | CANCELLED
deriving DecidableEq

structure Account where
  id : String
  systemAddress : String
  userId : String
  currency : String
  balance : ℤ
  locked : ℤ
  nonce : ℕ
deriving DecidableEq

structure Transaction where
  id : String
  systemHash : String
  fromAccountId : String
  toAccountId : String
  amount : ℤ
  currency : String
  accountNonce : ℕ
  status : TransactionStatus
  description : String
  blockId : Option String
  blockHeight : Option ℕ
deriving DecidableEq

structure LedgerState where
  accounts : List Account
  transactions : List Transaction
deriving DecidableEq

def findAccountById (s : LedgerState) (accountId : String) : Option Account :=
  s.accounts.find? (fun a => decide (a.id = accountId))

def findAccountByAddressAndUser (s : LedgerState) (addr userId : String) :
    Option Account :=
  s.accounts.find? (fun a => decide (a.systemAddress = addr ∧ a.userId = userId))

def findAccountByAddress (s : LedgerState) (addr : String) : Option Account :=
  s.accounts.find? (fun a => decide (a.systemAddress = addr))

def findTransactionById (s : LedgerState) (txId : String) : Option Transaction :=
  s.transactions.find? (fun t => decide (t.id = txId))

def saveAccount (s : LedgerState) (a : Account) : LedgerState :=
  { s with accounts := s.accounts.map (fun b => if b.id = a.id then a else b) }

def saveTransaction (s : LedgerState) (t : Transaction) : LedgerState :=
  { s with transactions := s.transactions.map (fun u => if u.id = t.id then t else u) }

def insertTransaction (s : LedgerState) (t : Transaction) : LedgerState :=
  { s with transactions := s.transactions ++ [t] }

/-- `manager.update(Account, account.id, \x7b locked \x7d)`: patch only the
`locked` column of the row with the given id. -/
def updateAccountLocked (s : LedgerState) (accountId : String) (newLocked : ℤ) :
    LedgerState :=
  { s with accounts :=
      s.accounts.map (fun b => if b.id = accountId then { b with locked := newLocked } else b) }

/-- `currency.toUpperCase()` on an ASCII currency code. -/
def jsToUpperCase (s : String) : String := String.mk (s.data.map Char.toUpper)

/-- `.substring(0, 255)` (ASCII). -/
def jsSubstring255 (s : String) : String := String.mk (s.data.take 255)

inductive WalletError
  | badRequest (message : String)
  | notFound (message : String)
  | forbidden (message : String)
deriving DecidableEq

def isNotFoundError {α : Type} : Except WalletError α → Bool
  | .error (.notFound _) => true
  | _ => false

/-- `WalletService.submitTransfer`.  The amount arrives already parsed as an
exact decimal; the cryptographically random fresh transaction id and
`systemHash` (`txn_` plus 16 random bytes in hex) are nondeterministic inputs
passed explicitly.  Thrown `HttpException`s roll the store transaction back,
so an error leaves no state change by construction; the returned row is
committed together with the updated sender. -/
def submitTransfer (s : LedgerState) (userId fromSystemAddress toSystemAddress : String)
    (amount : ℤ) (currency : String) (description : Option String)
    (newTxId newSystemHash : String) :
    Except WalletError (LedgerState × Transaction) :=
  if amount ≤ 0 then .error (.badRequest "Transfer amount must be positive.")
  else if fromSystemAddress = toSystemAddress then
    .error (.badRequest "Cannot transfer to the same account.")
  else
    let normalizedCurrency := jsToUpperCase currency
    match findAccountByAddressAndUser s fromSystemAddress userId with
    | none => .error (.forbidden "Sender account not found or access denied.")
    | some sender =>
      if sender.currency ≠ normalizedCurrency then
        .error (.badRequest "Sender account currency mismatch.")
      else if sender.balance - sender.locked < amount then
        .error (.badRequest "Insufficient available funds.")
      else
        match findAccountByAddress s toSystemAddress with
        | none =>
          .error (.notFound ("Recipient account " ++ toSystemAddress ++ " not found."))
        | some recipient =>
          if recipient.currency ≠ normalizedCurrency then
            .error (.badRequest "Recipient account currency mismatch.")
          else
            let currentNonceForTx := sender.nonce
            let sender2 := { sender with locked := sender.locked + amount,
                                         nonce := sender.nonce + 1 }
            let transactionEntity : Transaction :=
              { id := newTxId, systemHash := newSystemHash,
                fromAccountId := sender.id, toAccountId := recipient.id,
                amount := amount, currency := normalizedCurrency,
                accountNonce := currentNonceForTx,
                status := TransactionStatus.PENDING,
                description := description.getD ("Transfer to " ++ toSystemAddress),
                blockId := none, blockHeight := none }
            .ok (insertTransaction (saveAccount s sender2) transactionEntity,
                 transactionEntity)

/-- `TransactionProcessorService.failTransaction`: mark the row FAILED and
append the failure reason to its description (truncated to 255 characters). -/
def failTransaction (s : LedgerState) (transaction : Transaction) (reason : String) :
    LedgerState :=
  saveTransaction s
    { transaction with
      status := TransactionStatus.FAILED,
      description := jsSubstring255
        (transaction.description ++ " | ProcessorFailure: " ++ reason) }

/-- `TransactionProcessorService.revertLockOnAccount`: re-read the account,
subtract the amount from its current `locked`, clamping a negative result to
0, and patch only the `locked` column. -/
def revertLockOnAccount (s : LedgerState) (accountId : String)
    (amountToRevert : ℤ) : LedgerState :=
  match findAccountById s accountId with
  | none => s
  | some currentAccountState =>
    let newLocked := currentAccountState.locked - amountToRevert
    updateAccountLocked s accountId (if newLocked < 0 then 0 else newLocked)

/-- The outcome of the store transaction inside
`TransactionProcessorService.executeSingleTransaction`: the working state as
mutated by the `save`/`update` calls, the returned value, and whether the
source reached a `commitTransaction()` call on this path. -/
structure ExecResult where
  working : LedgerState
  returned : Option Transaction
  committed : Bool
deriving DecidableEq

/-- The body of `executeSingleTransaction` run against the store.  The source
commits on the missing-row path, the not-PENDING path and the success path;
the three failure branches (`failTransaction`, with a lock reversion on the
insufficient-balance branch) return without committing. -/
def executeSingleTransactionTx (s : LedgerState) (txId : String) : ExecResult :=
  match findTransactionById s txId with
  | none => { working := s, returned := none, committed := true }
  | some transaction =>
    if transaction.status ≠ TransactionStatus.PENDING then
      { working := s,
        returned := if transaction.status = TransactionStatus.PROCESSING
                    then some transaction else none,
        committed := true }
    else
      let processing := { transaction with status := TransactionStatus.PROCESSING }
      let s1 := saveTransaction s processing
      match findAccountById s transaction.fromAccountId,
            findAccountById s transaction.toAccountId with
      | none, _ =>
        { working := failTransaction s1 processing
            "Sender or recipient account data missing.",
          returned := none, committed := false }
      | some _, none =>
        { working := failTransaction s1 processing
            "Sender or recipient account data missing.",
          returned := none, committed := false }
      | some sender, some recipient =>
        let amount := transaction.amount
        if sender.locked < amount then
          { working := failTransaction s1 processing
              "Inconsistent locked amount for sender.",
            returned := none, committed := false }
        else if sender.balance < amount then
          { working := revertLockOnAccount
              (failTransaction s1 processing "Insufficient total balance.")
              sender.id amount,
            returned := none, committed := false }
        else
          let sender2 := { sender with balance := sender.balance - amount,
                                       locked := sender.locked - amount }
          let recipient2 := { recipient with balance := recipient.balance + amount }
          { working := saveAccount (saveAccount s1 sender2) recipient2,
            returned := some processing, committed := true }

/-- The durable effect of one `executeSingleTransaction(txId)` call: work not
committed before the query runner is released is rolled back, so the durable
state moves only on committed paths. -/
def executeSingleTransaction (s : LedgerState) (txId : String) :
    LedgerState × Option Transaction :=
  let r := executeSingleTransactionTx s txId
  (if r.committed then r.working else s, r.returned)

/-- Durable state after a cycle executes a list of transaction ids in order. -/
def executeMany (s : LedgerState) (txIds : List String) : LedgerState :=
  txIds.foldl (fun st txId => (executeSingleTransaction st txId).1) s

/-- Sum of `balance` over all accounts of one currency. -/
def currencyBalanceSum (s : LedgerState) (currency : String) : ℤ :=
  ((s.accounts.filter (fun a => decide (a.currency = currency))).map
    Account.balance).sum

/-- Primary keys are unique (database primary-key constraint). -/
def accountIdsNodup (s : LedgerState) : Prop :=
  (s.accounts.map Account.id).Nodup

/-- The lock-discipline invariant: for every account,
`balance ≥ locked ≥ 0`. -/
def LockDiscipline (s : LedgerState) : Prop :=
  ∀ a ∈ s.accounts, 0 ≤ a.locked ∧ a.locked ≤ a.balance

/-- Well-formedness of stored transactions, established at intake: positive
amount (`@Check "amount" > 0`), distinct endpoints, and endpoint accounts (if
present) in the transaction's currency. -/
def TxWellFormed (s : LedgerState) : Prop :=
  ∀ t ∈ s.transactions, 0 < t.amount ∧ t.fromAccountId ≠ t.toAccountId ∧
    (findAccountById s t.fromAccountId).all
      (fun a => decide (a.currency = t.currency)) = true ∧
    (findAccountById s t.toAccountId).all
      (fun a => decide (a.currency = t.currency)) = true

instance (s : LedgerState) : Decidable (accountIdsNodup s) := by
  unfold accountIdsNodup; infer_instance

instance (s : LedgerState) : Decidable (LockDiscipline s) := by
  unfold LockDiscipline; infer_instance

instance (s : LedgerState) : Decidable (TxWellFormed s) := by
  unfold TxWellFormed; infer_instance

/-- Sum of `balance` over the accounts of one currency, as a list function. -/
def balanceSumBy (l : List Account) (currency : String) : ℤ :=
  ((l.filter (fun a => decide (a.currency = currency))).map Account.balance).sum

/-! ## Concrete fixtures used by witnesses and counterexamples -/

def accA : Account :=
  { id := "a1", systemAddress := "acc_from", userId := "u1", currency := "NGN",
    balance := 1000, locked := 0, nonce := 0 }

def accB : Account :=
  { id := "a2", systemAddress := "acc_to", userId := "u2", currency := "NGN",
    balance := 0, locked := 0, nonce := 0 }

def accPoor : Account := { accA with balance := 10 }

def accLocked : Account := { accA with locked := 50 }

def accLowBalance : Account := { accA with balance := 40, locked := 50 }

def txPend1 : Transaction :=
  { id := "t1", systemHash := "h1", fromAccountId := "a1", toAccountId := "a2",
    amount := 50, currency := "NGN", accountNonce := 0,
    status := TransactionStatus.PENDING, description := "",
    blockId := none, blockHeight := none }

def txProc1 : Transaction := { txPend1 with status := TransactionStatus.PROCESSING }

def stateAB : LedgerState := { accounts := [accA, accB], transactions := [] }

def stateNoRecipient : LedgerState := { accounts := [accA], transactions := [] }

def statePoor : LedgerState := { accounts := [accPoor], transactions := [] }

def stateExecLockMissing : LedgerState :=
  { accounts := [accA, accB], transactions := [txPend1] }

def stateExecLowBalance : LedgerState :=
  { accounts := [accLowBalance, accB], transactions := [txPend1] }

def stateExecOK : LedgerState :=
  { accounts := [accLocked, accB], transactions := [txPend1] }

def stateProc : LedgerState := { accounts := [accA, accB], transactions := [txProc1] }

def txSubmitted : Transaction :=
  { id := "t9", systemHash := "h9", fromAccountId := "a1", toAccountId := "a2",
    amount := 150, currency := "NGN", accountNonce := 0,
    status := TransactionStatus.PENDING, description := "Transfer to acc_to",
    blockId := none, blockHeight := none }

def stateABafter : LedgerState :=
  { accounts := [{ accA with locked := 150, nonce := 1 }, accB],
    transactions := [txSubmitted] }

def testBlock0 : Block :=
  { id := "b0", height := 0, blockHash := "aa", previousBlockHash := none,
    timestamp := "t0", merkleRoot := "mm" }

def testChain0 : List Block := [testBlock0]

def testBlock1 : Block :=
  { id := "b1", height := 1,
    blockHash := calculateBlockHash "1" "t1" (some "aa") ["h1"],
    previousBlockHash := some "aa", timestamp := "t1",
    merkleRoot := calculateMerkleRoot ["h1"] }

/-! ## Theorems -/

theorem sortStrings_congr_of_perm {l1 l2 : List String} (h : l1.Perm l2) :
    sortStrings l1 = sortStrings l2 :=
  List.eq_of_perm_of_sorted (r := jsLe)
    (((List.perm_insertionSort jsLe l1).trans h).trans
      (List.perm_insertionSort jsLe l2).symm)
    (List.sorted_insertionSort jsLe l1) (List.sorted_insertionSort jsLe l2)

theorem merklePairs_length (l : List String) :
    (merklePairs l).length = (l.length + 1) / 2 := by
  induction l using merklePairs.induct with
  | case1 => simp [merklePairs]
  | case2 x => simp [merklePairs]
  | case3 x y rest ih => simp [merklePairs, ih]; omega

theorem merkleLevels_length_le :
    ∀ (fuel : Nat) (l : List String), l.length ≤ fuel + 1 →
      (merkleLevels fuel l).length ≤ 1 := by
  intro fuel
  induction fuel with
  | zero => intro l h; simpa [merkleLevels] using h
  | succ n ih =>
    intro l h
    by_cases hl : l.length ≤ 1
    · simp [merkleLevels, hl]
    · simp only [merkleLevels, hl, if_false]
      exact ih _ (by rw [merklePairs_length]; omega)

/-! ## Claims C9 and C4: the Merkle commitment -/

/-- C9 (sort-invariant commitment): for every list of transaction system
hashes and every permutation of it, with height, timestamp and previous block
hash held fixed, `calculateBlockHash` and `calculateMerkleRoot` return
identical results, so sealing the same batch in a different within-batch order
produces the same `merkleRoot` and `blockHash`. -/
theorem C9_sort_invariant_commitment (height timestamp : String)
    (previousBlockHash : Option String) (l1 l2 : List String)
    (h : l1.Perm l2) :
    calculateBlockHash height timestamp previousBlockHash l1 =
      calculateBlockHash height timestamp previousBlockHash l2 ∧
    calculateMerkleRoot l1 = calculateMerkleRoot l2 := by
  constructor
  · unfold calculateBlockHash
    rw [sortStrings_congr_of_perm h]
  · match l1, l2, h with
    | [], l2, h => rw [h.nil_eq]
    | [a], l2, h => rw [(List.perm_singleton.mp h.symm).symm]
    | a :: b :: t, l2, h =>
      have hlen : 2 ≤ l2.length := by
        have := h.length_eq; simp at this; omega
      match l2, hlen with
      | x :: y :: s, _ =>
        show merkleReduce (sortStrings (a :: b :: t)) =
          merkleReduce (sortStrings (x :: y :: s))
        rw [sortStrings_congr_of_perm h]

/-- C9 witness: a concrete two-element batch and its transposition give the
same block hash and Merkle root. -/
theorem C9_sort_invariant_commitment_witness :
    (["txn_b", "txn_a"] : List String).Perm ["txn_a", "txn_b"] ∧
    (calculateBlockHash "0" "2024-01-01T00:00:00.000Z" none ["txn_b", "txn_a"] =
       calculateBlockHash "0" "2024-01-01T00:00:00.000Z" none ["txn_a", "txn_b"] ∧
     calculateMerkleRoot ["txn_b", "txn_a"] = calculateMerkleRoot ["txn_a", "txn_b"]) :=
  ⟨List.Perm.swap "txn_a" "txn_b" [],
   C9_sort_invariant_commitment "0" "2024-01-01T00:00:00.000Z" none
     ["txn_b", "txn_a"] ["txn_a", "txn_b"] (List.Perm.swap "txn_a" "txn_b" [])⟩

set_option maxRecDepth 8000 in
/-- C4 counterexample: on the single-element input `["a"]` the code's
`calculateMerkleRoot` hashes the lone element once (`SHA256("a")`), whereas
the reference pairwise reduction the specification describes stops as soon as
one node remains and so yields the element itself — the two disagree. -/
theorem C4_merkle_root_counterexample :
    specMerkleRoot ["a"] = "a" ∧ calculateMerkleRoot ["a"] = sha256 "a" ∧
    calculateMerkleRoot ["a"] ≠ specMerkleRoot ["a"] := by
  refine ⟨rfl, rfl, ?_⟩
  show sha256 "a" ≠ "a"
  decide

/-- C4 amended: `calculateMerkleRoot` equals the reference Merkle computation
of the specification on every input except single-element lists — the empty
input yields `SHA256("")` and any input of two or more hashes is sorted
ascending lexicographically and reduced by pairwise SHA-256 with the last
element duplicated at odd levels; on a single-element list the code instead
returns the SHA-256 of the lone hash. -/
theorem C4_merkle_root_matches_spec (hs : List String) (h : hs.length ≠ 1) :
    calculateMerkleRoot hs = specMerkleRoot hs := by
  match hs with
  | [] => rfl
  | [a] => exact absurd rfl h
  | a :: b :: t => rfl

/-- C4 witness: a concrete two-element input where code and reference agree. -/
theorem C4_merkle_root_matches_spec_witness :
    (["txn_b", "txn_a"] : List String).length ≠ 1 ∧
    calculateMerkleRoot ["txn_b", "txn_a"] = specMerkleRoot ["txn_b", "txn_a"] :=
  ⟨by decide, C4_merkle_root_matches_spec ["txn_b", "txn_a"] (by decide)⟩

theorem getLatestBlock_go_mem :
    ∀ (l : List Block) (acc : Option Block) (lb : Block),
      l.foldl pickLatest acc = some lb → lb ∈ l ∨ acc = some lb := by
  intro l
  induction l with
  | nil => intro acc lb h; exact .inr h
  | cons b t ih =>
    intro acc lb h
    rcases ih _ _ h with hm | hacc
    · exact .inl (List.mem_cons_of_mem _ hm)
    · match acc with
      | none =>
        simp only [pickLatest] at hacc
        cases hacc
        exact .inl (List.mem_cons_self b t)
      | some m =>
        simp only [pickLatest] at hacc
        by_cases hc : m.height < b.height
        · rw [if_pos hc] at hacc; cases hacc; exact .inl (List.mem_cons_self b t)
        · rw [if_neg hc] at hacc; exact .inr hacc

theorem getLatestBlock_go_max :
    ∀ (l : List Block) (acc : Option Block) (lb : Block),
      l.foldl pickLatest acc = some lb →
      (∀ b ∈ l, b.height ≤ lb.height) ∧
        (∀ m, acc = some m → m.height ≤ lb.height) := by
  intro l
  induction l with
  | nil =>
    intro acc lb h
    refine ⟨fun b hb => absurd hb (List.not_mem_nil b), fun m hm => ?_⟩
    rw [hm] at h; cases h; exact le_refl _
  | cons b t ih =>
    intro acc lb h
    have h2 : t.foldl pickLatest (pickLatest acc b) = some lb := h
    obtain ⟨h1, hacc⟩ := ih _ _ h2
    have hb_le : ∀ p, pickLatest acc b = some p →
        b.height ≤ p.height ∧ (∀ m, acc = some m → m.height ≤ p.height) := by
      intro p hp
      match acc with
      | none =>
        cases hp
        exact ⟨le_refl _, fun m hm => by cases hm⟩
      | some m =>
        simp only [pickLatest] at hp
        by_cases hc : m.height < b.height
        · rw [if_pos hc] at hp; cases hp
          exact ⟨le_refl _, fun m2 hm2 => by cases hm2; exact le_of_lt hc⟩
        · rw [if_neg hc] at hp; cases hp
          exact ⟨le_of_not_lt hc, fun m2 hm2 => by cases hm2; exact le_refl _⟩
    have hsome : ∃ p, pickLatest acc b = some p := by
      match acc with
      | none => exact ⟨b, rfl⟩
      | some m =>
        simp only [pickLatest]
        by_cases hc : m.height < b.height
        · exact ⟨b, if_pos hc⟩
        · exact ⟨m, if_neg hc⟩
    obtain ⟨p, hp⟩ := hsome
    obtain ⟨hbp, haccp⟩ := hb_le p hp
    have hple : p.height ≤ lb.height := hacc p hp
    refine ⟨fun c hc => ?_, fun m hm => le_trans (haccp m hm) hple⟩
    rcases List.mem_cons.mp hc with rfl | hct
    · exact le_trans hbp hple
    · exact h1 c hct

theorem getLatestBlock_mem {blocks : List Block} {lb : Block}
    (h : getLatestBlock blocks = some lb) : lb ∈ blocks := by
  rcases getLatestBlock_go_mem blocks none lb h with hm | hacc
  · exact hm
  · cases hacc

theorem getLatestBlock_max {blocks : List Block} {lb : Block}
    (h : getLatestBlock blocks = some lb) : ∀ b ∈ blocks, b.height ≤ lb.height :=
  (getLatestBlock_go_max blocks none lb h).1

theorem getLatestBlock_eq_none :
    ∀ {blocks : List Block}, getLatestBlock blocks = none → blocks = [] := by
  intro blocks h
  match blocks with
  | [] => rfl
  | b :: t =>
    exfalso
    have : ∀ (l : List Block) (m : Block), ∃ p, l.foldl pickLatest (some m) = some p := by
      intro l
      induction l with
      | nil => exact fun m => ⟨m, rfl⟩
      | cons c u ih =>
        intro m
        simp only [List.foldl, pickLatest]
        by_cases hc : m.height < c.height
        · rw [if_pos hc]; exact ih c
        · rw [if_neg hc]; exact ih m
    obtain ⟨p, hp⟩ := this t b
    rw [show getLatestBlock (b :: t) = t.foldl pickLatest (some b) from rfl, hp] at h
    cases h

theorem exists_height_pred {blocks : List Block}
    (hnd : (blocks.map Block.height).Nodup)
    (hlt : ∀ b ∈ blocks, b.height < blocks.length)
    (hne : blocks ≠ []) :
    ∃ b ∈ blocks, b.height = blocks.length - 1 := by
  have hsub : (blocks.map Block.height).toFinset ⊆ Finset.range blocks.length := by
    intro x hx
    rw [List.mem_toFinset] at hx
    obtain ⟨b, hb, rfl⟩ := List.mem_map.mp hx
    exact Finset.mem_range.mpr (hlt b hb)
  have hcard : (blocks.map Block.height).toFinset.card = blocks.length := by
    rw [List.toFinset_card_of_nodup hnd]; simp
  have heq : (blocks.map Block.height).toFinset = Finset.range blocks.length :=
    Finset.eq_of_subset_of_card_le hsub (by rw [hcard, Finset.card_range])
  have hmem : blocks.length - 1 ∈ (blocks.map Block.height).toFinset := by
    rw [heq, Finset.mem_range]
    have : blocks.length ≠ 0 := fun h0 => hne (List.eq_nil_of_length_eq_zero h0)
    omega
  rw [List.mem_toFinset] at hmem
  obtain ⟨b, hb, hbh⟩ := List.mem_map.mp hmem
  exact ⟨b, hb, hbh⟩

theorem latest_height_of_chainOK {blocks : List Block} {lb : Block}
    (hok : ChainOK blocks) (h : getLatestBlock blocks = some lb) :
    lb.height = blocks.length - 1 := by
  obtain ⟨hnd, hlt, _⟩ := hok
  have hmem := getLatestBlock_mem h
  have hne : blocks ≠ [] := by
    intro h0; rw [h0] at hmem; exact absurd hmem (List.not_mem_nil lb)
  obtain ⟨b, hb, hbh⟩ := exists_height_pred hnd hlt hne
  have h1 : b.height ≤ lb.height := getLatestBlock_max h b hb
  have h2 : lb.height < blocks.length := hlt lb hmem
  omega

/-- C8 (chain linkage): every block created by `createBlockWithTypeORM` has
`height = latest.height + 1` and `previousBlockHash = latest.blockHash` when a
highest-height block exists, and `height = 0` with a null
`previousBlockHash` when none exists; starting from a well-linked store,
every block of the resulting store with positive height carries the hash of
the unique block at the preceding height (`ChainOK` is preserved). -/
theorem C8_chain_linkage (blocks : List Block) (txs : List (String × String))
    (newId timestamp : String) (blocks2 : List Block) (nb : Block)
    (hok : ChainOK blocks)
    (h : createBlockWithTypeORM blocks txs newId timestamp = .ok (blocks2, nb)) :
    (getLatestBlock blocks = none →
        nb.height = 0 ∧ nb.previousBlockHash = none) ∧
    (∀ lb, getLatestBlock blocks = some lb →
        nb.height = lb.height + 1 ∧ nb.previousBlockHash = some lb.blockHash) ∧
    blocks2 = blocks ++ [nb] ∧ ChainOK blocks2 := by
  unfold createBlockWithTypeORM at h
  by_cases hempty : txs.length = 0
  · rw [if_pos hempty] at h; cases h
  rw [if_neg hempty] at h
  simp only [Except.ok.injEq, Prod.mk.injEq] at h
  obtain ⟨hb2, hnb⟩ := h
  match hlatest : getLatestBlock blocks with
  | none =>
    have hnil : blocks = [] := getLatestBlock_eq_none hlatest
    rw [hlatest] at hnb hb2
    rw [hnb] at hb2
    subst hb2
    have hnb0 : nb.height = 0 := by rw [← hnb]
    have hnbp : nb.previousBlockHash = none := by rw [← hnb]; rfl
    refine ⟨fun _ => ⟨hnb0, hnbp⟩, fun lb hlb => Option.noConfusion hlb, rfl, ?_⟩
    rw [hnil]
    refine ⟨by simp, ?_, ?_⟩
    · intro b hb
      simp only [List.nil_append, List.mem_singleton] at hb
      subst hb
      simp
      omega
    · intro b hb hpos
      simp only [List.nil_append, List.mem_singleton] at hb
      subst hb
      omega
  | some lb =>
    rw [hlatest] at hnb hb2
    rw [hnb] at hb2
    subst hb2
    have hlbh : lb.height = blocks.length - 1 := latest_height_of_chainOK hok hlatest
    have hlbmem : lb ∈ blocks := getLatestBlock_mem hlatest
    have hlen1 : 1 ≤ blocks.length := by
      cases blocks with
      | nil => exact absurd hlbmem (List.not_mem_nil lb)
      | cons c t => simp
    have hnbh1 : nb.height = lb.height + 1 := by rw [← hnb]
    have hnbh : nb.height = blocks.length := by omega
    have hnbprev : nb.previousBlockHash = some lb.blockHash := by rw [← hnb]; rfl
    obtain ⟨hnd, hlt, hlink⟩ := hok
    refine ⟨fun hc => Option.noConfusion hc, fun lb2 hlb2 => ?_, rfl, ?_⟩
    · have h2 : lb = lb2 := by injection hlb2
      rw [← h2]
      exact ⟨hnbh1, hnbprev⟩
    · refine ⟨?_, ?_, ?_⟩
      · rw [List.map_append, List.nodup_append]
        refine ⟨hnd, by simp, ?_⟩
        intro x hx hx2
        simp only [List.map_cons, List.map_nil, List.mem_cons,
          List.not_mem_nil, or_false] at hx2
        obtain ⟨b, hb, rfl⟩ := List.mem_map.mp hx
        have := hlt b hb
        omega
      · intro b hb
        rw [List.length_append]
        simp only [List.mem_append, List.mem_singleton] at hb
        rcases hb with hb | rfl
        · have := hlt b hb; simp; omega
        · simp; omega
      · intro b hb hpos
        simp only [List.mem_append, List.mem_singleton] at hb
        rcases hb with hb | rfl
        · obtain ⟨p, hp, hph, hpl⟩ := hlink b hb hpos
          exact ⟨p, List.mem_append_left _ hp, hph, hpl⟩
        · refine ⟨lb, List.mem_append_left _ hlbmem, ?_, hnbprev⟩
          omega

/-- C8 witness: starting from a well-linked one-block chain, creating a block
for a singleton batch appends a block of height 1 linked to the block at
height 0. -/
theorem C8_chain_linkage_witness :
    ChainOK testChain0 ∧
    createBlockWithTypeORM testChain0 [("t1", "h1")] "b1" "t1" =
      .ok (testChain0 ++ [testBlock1], testBlock1) ∧
    ((getLatestBlock testChain0 = none →
        testBlock1.height = 0 ∧ testBlock1.previousBlockHash = none) ∧
     (∀ lb, getLatestBlock testChain0 = some lb →
        testBlock1.height = lb.height + 1 ∧
        testBlock1.previousBlockHash = some lb.blockHash) ∧
     testChain0 ++ [testBlock1] = testChain0 ++ [testBlock1] ∧
     ChainOK (testChain0 ++ [testBlock1])) := by
  refine ⟨by decide, by rfl, ?_⟩
  exact C8_chain_linkage testChain0 [("t1", "h1")] "b1" "t1"
    (testChain0 ++ [testBlock1]) testBlock1 (by decide) (by rfl)

/-! ## Store-helper lemmas -/

theorem currencyBalanceSum_eq (s : LedgerState) (c : String) :
    currencyBalanceSum s c = balanceSumBy s.accounts c := rfl

theorem eq_of_account_id_eq {l : List Account} (hnd : (l.map Account.id).Nodup)
    {a b : Account} (ha : a ∈ l) (hb : b ∈ l) (h : a.id = b.id) : a = b :=
  List.inj_on_of_nodup_map hnd ha hb h

theorem find?_acc_map_ids (l : List Account) (g : Account → Account)
    (hg : ∀ b, (g b).id = b.id) (x : String) :
    (l.map g).find? (fun a => decide (a.id = x)) =
      (l.find? (fun a => decide (a.id = x))).map g := by
  induction l with
  | nil => rfl
  | cons b t ih =>
    simp only [List.map_cons, List.find?_cons, hg b]
    cases hd : decide (b.id = x)
    · exact ih
    · rfl

theorem find?_acc_id_self {l : List Account} {a : Account} (ha : a ∈ l)
    (hnd : (l.map Account.id).Nodup) :
    l.find? (fun b => decide (b.id = a.id)) = some a := by
  induction l with
  | nil => cases ha
  | cons b t ih =>
    rw [List.map_cons] at hnd
    have hnd2 := List.nodup_cons.mp hnd
    rcases List.mem_cons.mp ha with rfl | hat
    · simp [List.find?_cons]
    · have hbne : b.id ≠ a.id := fun he =>
        hnd2.1 (by rw [he]; exact List.mem_map_of_mem Account.id hat)
      rw [List.find?_cons]
      have hdf : (decide (b.id = a.id)) = false := by simp [hbne]
      rw [hdf]
      exact ih hat hnd2.2

theorem map_replace_map_ids (l : List Account) (a2 : Account) :
    (l.map (fun b => if b.id = a2.id then a2 else b)).map Account.id =
      l.map Account.id := by
  rw [List.map_map]
  apply List.map_congr_left
  intro b _
  by_cases hb : b.id = a2.id
  · simp [Function.comp, hb]
  · simp [Function.comp, hb]

theorem balanceSumBy_replace (l : List Account) (a0 a2 : Account) (c : String)
    (ha : a0 ∈ l) (hnd : (l.map Account.id).Nodup)
    (hid : a2.id = a0.id) (hcur : a2.currency = a0.currency) :
    balanceSumBy (l.map (fun b => if b.id = a2.id then a2 else b)) c =
      balanceSumBy l c + (if a0.currency = c then a2.balance - a0.balance else 0) := by
  induction l with
  | nil => cases ha
  | cons b t ih =>
    rw [List.map_cons] at hnd
    have hnd2 := List.nodup_cons.mp hnd
    simp only [List.map_cons]
    rcases List.mem_cons.mp ha with rfl | hat
    · have hbif : a0.id = a2.id := hid.symm
      have hrest : t.map (fun x => if x.id = a2.id then a2 else x) = t := by
        have hne : ∀ x ∈ t, x.id ≠ a2.id := by
          intro x hx he
          have hxb : x.id = a0.id := by rw [he, hid]
          exact hnd2.1 (by rw [← hxb]; exact List.mem_map_of_mem Account.id hx)
        calc t.map (fun x => if x.id = a2.id then a2 else x)
            = t.map id := List.map_congr_left (fun x hx => if_neg (hne x hx))
          _ = t := List.map_id t
      rw [if_pos hbif, hrest]
      unfold balanceSumBy
      by_cases hcc : a0.currency = c
      · have hcc2 : a2.currency = c := by rw [hcur, hcc]
        rw [List.filter_cons, List.filter_cons, if_pos (by simp [hcc2]),
          if_pos (by simp [hcc]), if_pos hcc]
        simp only [List.map_cons, List.sum_cons]
        ring
      · have hcc2 : ¬ a2.currency = c := by rw [hcur]; exact hcc
        rw [List.filter_cons, List.filter_cons, if_neg (by simp [hcc2]),
          if_neg (by simp [hcc]), if_neg hcc]
        simp
    · have hbne : b.id ≠ a2.id := by
        intro he
        have hba : b.id = a0.id := by rw [he, hid]
        exact hnd2.1 (by rw [hba]; exact List.mem_map_of_mem Account.id hat)
      rw [if_neg hbne]
      have ihh := ih hat hnd2.2
      unfold balanceSumBy at ihh ⊢
      by_cases hcc : b.currency = c
      · rw [List.filter_cons, List.filter_cons, if_pos (by simp [hcc]),
          if_pos (by simp [hcc])]
        simp only [List.map_cons, List.sum_cons]
        by_cases hc0 : a0.currency = c
        · rw [if_pos hc0] at ihh ⊢; omega
        · rw [if_neg hc0] at ihh ⊢; omega
      · rw [List.filter_cons, List.filter_cons, if_neg (by simp [hcc]),
          if_neg (by simp [hcc])]
        exact ihh


/-! ## Shape lemmas for the two store transactions -/

theorem submit_success_shape {s : LedgerState} {userId fromAddr toAddr : String}
    {amount : ℤ} {currency : String} {description : Option String}
    {newTxId newSystemHash : String} {s2 : LedgerState} {t : Transaction}
    (h : submitTransfer s userId fromAddr toAddr amount currency description
           newTxId newSystemHash = .ok (s2, t)) :
    ∃ sender recipient,
      0 < amount ∧ fromAddr ≠ toAddr ∧
      findAccountByAddressAndUser s fromAddr userId = some sender ∧
      sender.currency = jsToUpperCase currency ∧
      amount ≤ sender.balance - sender.locked ∧
      findAccountByAddress s toAddr = some recipient ∧
      recipient.currency = jsToUpperCase currency ∧
      t = { id := newTxId, systemHash := newSystemHash, fromAccountId := sender.id,
            toAccountId := recipient.id, amount := amount,
            currency := jsToUpperCase currency, accountNonce := sender.nonce,
            status := TransactionStatus.PENDING,
            description := description.getD ("Transfer to " ++ toAddr),
            blockId := none, blockHeight := none } ∧
      s2 = insertTransaction
             (saveAccount s { sender with locked := sender.locked + amount,
                                          nonce := sender.nonce + 1 }) t := by
  unfold submitTransfer at h
  by_cases h1 : amount ≤ 0
  · rw [if_pos h1] at h; cases h
  rw [if_neg h1] at h
  by_cases h2 : fromAddr = toAddr
  · rw [if_pos h2] at h; cases h
  rw [if_neg h2] at h
  match hsender : findAccountByAddressAndUser s fromAddr userId with
  | none => rw [hsender] at h; cases h
  | some sender =>
    rw [hsender] at h
    dsimp only at h
    by_cases h3 : sender.currency ≠ jsToUpperCase currency
    · rw [if_pos h3] at h; cases h
    rw [if_neg h3] at h
    by_cases h4 : sender.balance - sender.locked < amount
    · rw [if_pos h4] at h; cases h
    rw [if_neg h4] at h
    match hrec : findAccountByAddress s toAddr with
    | none => rw [hrec] at h; cases h
    | some recipient =>
      rw [hrec] at h
      dsimp only at h
      by_cases h5 : recipient.currency ≠ jsToUpperCase currency
      · rw [if_pos h5] at h; cases h
      rw [if_neg h5] at h
      simp only [Except.ok.injEq, Prod.mk.injEq] at h
      obtain ⟨hs2, ht⟩ := h
      exact ⟨sender, recipient, by omega, h2, rfl, not_not.mp h3,
        by omega, rfl, not_not.mp h5, ht.symm, by rw [← hs2, ← ht]⟩

theorem execute_status_not_pending {s : LedgerState} {txId : String}
    {t : Transaction} (hf : findTransactionById s txId = some t)
    (hst : t.status ≠ TransactionStatus.PENDING) :
    executeSingleTransaction s txId =
      (s, if t.status = TransactionStatus.PROCESSING then some t else none) := by
  unfold executeSingleTransaction executeSingleTransactionTx
  rw [hf]
  dsimp only
  rw [if_pos hst]
  rfl

theorem execute_success_shape {s : LedgerState} {txId : String}
    {s2 : LedgerState} {t : Transaction}
    (h : executeSingleTransaction s txId = (s2, some t)) :
    (findTransactionById s txId = some t ∧
       t.status = TransactionStatus.PROCESSING ∧ s2 = s) ∨
    (∃ t0 sender recipient, findTransactionById s txId = some t0 ∧
       t0.status = TransactionStatus.PENDING ∧
       t = { t0 with status := TransactionStatus.PROCESSING } ∧
       findAccountById s t0.fromAccountId = some sender ∧
       findAccountById s t0.toAccountId = some recipient ∧
       t0.amount ≤ sender.locked ∧ t0.amount ≤ sender.balance ∧
       s2 = saveAccount
              (saveAccount
                (saveTransaction s { t0 with status := TransactionStatus.PROCESSING })
                { sender with balance := sender.balance - t0.amount,
                              locked := sender.locked - t0.amount })
              { recipient with balance := recipient.balance + t0.amount }) := by
  unfold executeSingleTransaction executeSingleTransactionTx at h
  match hf : findTransactionById s txId with
  | none =>
    rw [hf] at h
    dsimp only at h
    rw [Prod.mk.injEq] at h
    exact Option.noConfusion h.2
  | some t0 =>
    rw [hf] at h
    dsimp only at h
    by_cases hst : t0.status ≠ TransactionStatus.PENDING
    · rw [if_pos hst] at h
      dsimp only at h
      rw [Prod.mk.injEq] at h
      obtain ⟨hs2, ht⟩ := h
      by_cases hpr : t0.status = TransactionStatus.PROCESSING
      · rw [if_pos hpr] at ht
        have ht2 : t0 = t := Option.some.inj ht
        exact .inl ⟨by rw [ht2], ht2 ▸ hpr, hs2.symm⟩
      · rw [if_neg hpr] at ht
        exact Option.noConfusion ht
    · rw [if_neg hst] at h
      push_neg at hst
      match hfa : findAccountById s t0.fromAccountId,
            hta : findAccountById s t0.toAccountId with
      | none, _ =>
        rw [hfa] at h
        dsimp only at h
        rw [Prod.mk.injEq] at h
        exact Option.noConfusion h.2
      | some sender, none =>
        rw [hfa, hta] at h
        dsimp only at h
        rw [Prod.mk.injEq] at h
        exact Option.noConfusion h.2
      | some sender, some recipient =>
        rw [hfa, hta] at h
        dsimp only at h
        by_cases hlock : sender.locked < t0.amount
        · rw [if_pos hlock] at h
          dsimp only at h
          rw [Prod.mk.injEq] at h
          exact Option.noConfusion h.2
        rw [if_neg hlock] at h
        by_cases hbal : sender.balance < t0.amount
        · rw [if_pos hbal] at h
          dsimp only at h
          rw [Prod.mk.injEq] at h
          exact Option.noConfusion h.2
        rw [if_neg hbal] at h
        dsimp only at h
        rw [Prod.mk.injEq] at h
        obtain ⟨hs2, ht⟩ := h
        have ht2 : ({ t0 with status := TransactionStatus.PROCESSING } : Transaction) = t :=
          Option.some.inj ht
        exact .inr ⟨t0, sender, recipient, rfl, hst, ht2.symm, hfa, hta,
          not_lt.mp hlock, not_lt.mp hbal, hs2.symm⟩

theorem findTransaction_save_self {l : List Transaction} {t0 : Transaction}
    (t : Transaction) {x : String}
    (hf : l.find? (fun u => decide (u.id = x)) = some t0) (hid : t.id = t0.id) :
    (l.map (fun u => if u.id = t.id then t else u)).find?
      (fun u => decide (u.id = x)) = some t := by
  have ht0x : t0.id = x := by simpa using List.find?_some hf
  induction l with
  | nil => cases hf
  | cons u l2 ih =>
    rw [List.find?_cons] at hf
    cases hd : decide (u.id = x) with
    | true =>
      rw [hd] at hf
      have hu : u = t0 := Option.some.inj hf
      have hut : u.id = t.id := by rw [hu, hid]
      simp only [List.map_cons, if_pos hut, List.find?_cons]
      have : decide (t.id = x) = true := by simp [hid, ht0x]
      rw [this]
    | false =>
      rw [hd] at hf
      have hune : u.id ≠ t.id := by
        intro he
        have : u.id = x := by rw [he, hid, ht0x]
        simp [this] at hd
      simp only [List.map_cons, if_neg hune, List.find?_cons, hd]
      exact ih hf

theorem findTransaction_saveAccount (s : LedgerState) (a : Account) (x : String) :
    findTransactionById (saveAccount s a) x = findTransactionById s x := rfl

/-! ## Claims C3, C5, C6, C7 -/

/-- C3 counterexample: with sender `acc_from` owning 10 with 0 locked and no
recipient account for `acc_to`, a transfer of 50 fails with BadRequest
(Insufficient available funds), not NotFound — the available-funds check runs
before the recipient lookup, contrary to the claimed ordering. -/
theorem C3_recipient_check_counterexample :
    submitTransfer statePoor "u1" "acc_from" "acc_to" 50 "NGN" none "t1" "h1" =
      .error (.badRequest "Insufficient available funds.") ∧
    isNotFoundError
      (submitTransfer statePoor "u1" "acc_from" "acc_to" 50 "NGN" none "t1" "h1") =
      false :=
  ⟨rfl, rfl⟩

/-- C3 amended: for a submitTransfer call with positive amount, distinct
addresses, a caller-owned sender of matching currency and a missing recipient
account, the call fails with NotFound and no state change only when the
sender's available balance covers the amount; when it does not, the
available-funds check fires first and the call fails with BadRequest
(Insufficient available funds). -/
theorem C3_recipient_missing_after_funds (s : LedgerState)
    (userId fromAddr toAddr : String) (amount : ℤ) (currency : String)
    (description : Option String) (newTxId newSystemHash : String)
    (sender : Account)
    (hpos : 0 < amount) (hne : fromAddr ≠ toAddr)
    (hsender : findAccountByAddressAndUser s fromAddr userId = some sender)
    (hcur : sender.currency = jsToUpperCase currency)
    (hrec : findAccountByAddress s toAddr = none) :
    (amount ≤ sender.balance - sender.locked →
       submitTransfer s userId fromAddr toAddr amount currency description
         newTxId newSystemHash =
         .error (.notFound ("Recipient account " ++ toAddr ++ " not found."))) ∧
    (sender.balance - sender.locked < amount →
       submitTransfer s userId fromAddr toAddr amount currency description
         newTxId newSystemHash =
         .error (.badRequest "Insufficient available funds.")) := by
  constructor <;> intro hav
  · unfold submitTransfer
    rw [if_neg (not_le.mpr hpos), if_neg hne, hsender]
    dsimp only
    rw [if_neg (not_not.mpr hcur), if_neg (not_lt.mpr hav), hrec]
  · unfold submitTransfer
    rw [if_neg (not_le.mpr hpos), if_neg hne, hsender]
    dsimp only
    rw [if_neg (not_not.mpr hcur), if_pos hav]

/-- C3 witness: with ample funds and the recipient missing, the amended claim
yields NotFound at a concrete input. -/
theorem C3_recipient_missing_after_funds_witness :
    (0 : ℤ) < 50 ∧ "acc_from" ≠ "acc_to" ∧
    findAccountByAddressAndUser stateNoRecipient "acc_from" "u1" = some accA ∧
    accA.currency = jsToUpperCase "NGN" ∧
    findAccountByAddress stateNoRecipient "acc_to" = none ∧
    (50 ≤ accA.balance - accA.locked →
      submitTransfer stateNoRecipient "u1" "acc_from" "acc_to" 50 "NGN" none "t1" "h1" =
        .error (.notFound ("Recipient account " ++ "acc_to" ++ " not found."))) :=
  ⟨by decide, by decide, rfl, rfl, rfl,
   (C3_recipient_missing_after_funds stateNoRecipient "u1" "acc_from" "acc_to" 50
     "NGN" none "t1" "h1" accA (by decide) (by decide) rfl rfl rfl).1⟩

set_option maxRecDepth 4000 in
/-- C5: the two FAILED branches of `executeSingleTransaction` behave as
claimed only inside the open store transaction: with `locked < amount` the
working state marks the row FAILED without touching the lock, and with
`locked ≥ amount > balance` it marks the row FAILED and reduces the lock by
the amount — but neither branch reaches `commitTransaction()`, so the durable
state is unchanged and the row remains PENDING; only `null` is returned. -/
theorem C5_failed_branch_rollback :
    (executeSingleTransactionTx stateExecLockMissing "t1").committed = false ∧
    (executeSingleTransactionTx stateExecLockMissing "t1").returned = none ∧
    findTransactionById (executeSingleTransactionTx stateExecLockMissing "t1").working "t1" =
      some { txPend1 with status := TransactionStatus.FAILED, description := jsSubstring255 (txPend1.description ++ " | ProcessorFailure: Inconsistent locked amount for sender.") } ∧
    findAccountById (executeSingleTransactionTx stateExecLockMissing "t1").working "a1" =
      some accA ∧
    executeSingleTransaction stateExecLockMissing "t1" = (stateExecLockMissing, none) ∧
    findTransactionById stateExecLockMissing "t1" = some txPend1 ∧
    (executeSingleTransactionTx stateExecLowBalance "t1").committed = false ∧
    findAccountById (executeSingleTransactionTx stateExecLowBalance "t1").working "a1" =
      some { accLowBalance with locked := 0 } ∧
    executeSingleTransaction stateExecLowBalance "t1" = (stateExecLowBalance, none) := by
  decide

/-- C6: a successful `submitTransfer` commits exactly these effects: the
sender's `locked` grows by the amount, the sender's `nonce` by one, the
sender's balance (and every other balance) is untouched, and one new PENDING
transaction row is appended carrying the supplied fresh `systemHash` and the
sender's pre-increment nonce as `accountNonce`. -/
theorem find?_replace_self (l : List Account) (a0 a2 : Account) (ha : a0 ∈ l)
    (hnd : (l.map Account.id).Nodup) (hid : a2.id = a0.id) :
    (l.map (fun b => if b.id = a2.id then a2 else b)).find?
      (fun b => decide (b.id = a0.id)) = some a2 := by
  have hg : ∀ b : Account, ((fun b => if b.id = a2.id then a2 else b) b).id = b.id := by
    intro b
    by_cases hb : b.id = a2.id
    · simp [hb]
    · simp [hb]
  rw [find?_acc_map_ids _ _ hg, find?_acc_id_self ha hnd]
  show some (if a0.id = a2.id then a2 else a0) = some a2
  rw [if_pos hid.symm]

theorem map_idbal_replace (l : List Account) (a0 a2 : Account) (ha : a0 ∈ l)
    (hnd : (l.map Account.id).Nodup) (hid : a2.id = a0.id)
    (hbal : a2.balance = a0.balance) :
    (l.map (fun b => if b.id = a2.id then a2 else b)).map
      (fun a => (a.id, a.balance)) = l.map (fun a => (a.id, a.balance)) := by
  rw [List.map_map]
  apply List.map_congr_left
  intro b hb
  by_cases hbs : b.id = a2.id
  · have hba : b = a0 := eq_of_account_id_eq hnd hb ha (by rw [hbs, hid])
    rw [hba] at hbs ⊢
    show ((if a0.id = a2.id then a2 else a0).id,
          (if a0.id = a2.id then a2 else a0).balance) = (a0.id, a0.balance)
    rw [if_pos hbs, hid, hbal]
  · simp [Function.comp, hbs]

theorem C6_submit_postconditions (s : LedgerState) (userId fromAddr toAddr : String)
    (amount : ℤ) (currency : String) (description : Option String)
    (newTxId newSystemHash : String) (s2 : LedgerState) (t : Transaction)
    (sender : Account)
    (hnd : accountIdsNodup s)
    (hsender : findAccountByAddressAndUser s fromAddr userId = some sender)
    (hok : submitTransfer s userId fromAddr toAddr amount currency description
             newTxId newSystemHash = .ok (s2, t)) :
    findAccountById s2 sender.id =
      some { sender with locked := sender.locked + amount,
                         nonce := sender.nonce + 1 } ∧
    t.status = TransactionStatus.PENDING ∧ t.systemHash = newSystemHash ∧
    t.accountNonce = sender.nonce ∧
    s2.transactions = s.transactions ++ [t] ∧
    s2.accounts.map (fun a => (a.id, a.balance)) =
      s.accounts.map (fun a => (a.id, a.balance)) := by
  obtain ⟨sender', recipient, hpos, hne, hsender', hcur, hav, hrec, hrcur, ht, hs2⟩ :=
    submit_success_shape hok
  have hss : sender' = sender := Option.some.inj (hsender'.symm.trans hsender)
  rw [hss] at hcur hav ht hs2
  have hmem : sender ∈ s.accounts := List.mem_of_find?_eq_some hsender
  refine ⟨?_, by rw [ht], by rw [ht], by rw [ht], by rw [hs2]; rfl, ?_⟩
  · rw [hs2]
    exact find?_replace_self _ _ _ hmem hnd rfl
  · rw [hs2]
    exact map_idbal_replace _ _ _ hmem hnd rfl rfl

/-- C6 witness: a concrete successful submission from a two-account state. -/
theorem C6_submit_postconditions_witness :
    accountIdsNodup stateAB ∧
    findAccountByAddressAndUser stateAB "acc_from" "u1" = some accA ∧
    submitTransfer stateAB "u1" "acc_from" "acc_to" 150 "NGN" none "t9" "h9" =
      .ok (stateABafter, txSubmitted) ∧
    (findAccountById stateABafter accA.id =
       some { accA with locked := accA.locked + 150, nonce := accA.nonce + 1 } ∧
     txSubmitted.status = TransactionStatus.PENDING ∧
     txSubmitted.systemHash = "h9" ∧
     txSubmitted.accountNonce = accA.nonce ∧
     stateABafter.transactions = stateAB.transactions ++ [txSubmitted] ∧
     stateABafter.accounts.map (fun a => (a.id, a.balance)) =
       stateAB.accounts.map (fun a => (a.id, a.balance))) :=
  ⟨by decide, rfl, by rfl,
   C6_submit_postconditions stateAB "u1" "acc_from" "acc_to" 150 "NGN" none
     "t9" "h9" stateABafter txSubmitted accA (by decide) rfl (by rfl)⟩

/-- C7 (idempotent executor): on a row whose stored status is not PENDING,
`executeSingleTransaction` leaves the durable state unchanged and returns the
row exactly when its status is PROCESSING (null otherwise); consequently,
after any call that returns a row, re-executing the same id returns the same
PROCESSING row with no further mutation. -/
theorem C7_idempotent_executor (s : LedgerState) (txId : String) :
    (∀ t, findTransactionById s txId = some t →
       t.status ≠ TransactionStatus.PENDING →
       executeSingleTransaction s txId =
         (s, if t.status = TransactionStatus.PROCESSING then some t else none)) ∧
    (∀ s2 t, executeSingleTransaction s txId = (s2, some t) →
       executeSingleTransaction s2 txId = (s2, some t)) := by
  refine ⟨fun t hf hst => execute_status_not_pending hf hst, fun s2 t h => ?_⟩
  rcases execute_success_shape h with ⟨hf, hpr, rfl⟩ |
    ⟨t0, sender, recipient, hf, hst, ht, hfa, hta, h1, h2, hs2⟩
  · rw [execute_status_not_pending hf (by simp [hpr]), if_pos hpr]
  · have hfind2 : findTransactionById s2 txId = some t := by
      rw [hs2, findTransaction_saveAccount, findTransaction_saveAccount, ht]
      exact findTransaction_save_self _ hf rfl
    have hst2 : t.status = TransactionStatus.PROCESSING := by rw [ht]
    rw [execute_status_not_pending hfind2 (by simp [hst2]), if_pos hst2]

/-- C7 witness: executing an id whose row is already PROCESSING returns the
row and changes nothing. -/
theorem C7_idempotent_executor_witness :
    findTransactionById stateProc "t1" = some txProc1 ∧
    txProc1.status ≠ TransactionStatus.PENDING ∧
    executeSingleTransaction stateProc "t1" =
      (stateProc, if txProc1.status = TransactionStatus.PROCESSING
                  then some txProc1 else none) :=
  ⟨rfl, by decide, (C7_idempotent_executor stateProc "t1").1 txProc1 rfl (by decide)⟩

/-! ## Execution case analysis and preservation -/

theorem execute_cases (s : LedgerState) (txId : String) :
    (executeSingleTransaction s txId).1 = s ∨
    (∃ t0 sender recipient, findTransactionById s txId = some t0 ∧
       t0.status = TransactionStatus.PENDING ∧
       findAccountById s t0.fromAccountId = some sender ∧
       findAccountById s t0.toAccountId = some recipient ∧
       t0.amount ≤ sender.locked ∧ t0.amount ≤ sender.balance ∧
       (executeSingleTransaction s txId).1 =
         saveAccount
           (saveAccount
             (saveTransaction s { t0 with status := TransactionStatus.PROCESSING })
             { sender with balance := sender.balance - t0.amount,
                           locked := sender.locked - t0.amount })
           { recipient with balance := recipient.balance + t0.amount }) := by
  unfold executeSingleTransaction executeSingleTransactionTx
  match hf : findTransactionById s txId with
  | none => exact .inl rfl
  | some t0 =>
    dsimp only
    by_cases hst : t0.status ≠ TransactionStatus.PENDING
    · rw [if_pos hst]
      exact .inl rfl
    · rw [if_neg hst]
      push_neg at hst
      match hfa : findAccountById s t0.fromAccountId,
            hta : findAccountById s t0.toAccountId with
      | none, _ => exact .inl rfl
      | some sender, none => exact .inl rfl
      | some sender, some recipient =>
        dsimp only
        by_cases hlock : sender.locked < t0.amount
        · rw [if_pos hlock]
          exact .inl rfl
        rw [if_neg hlock]
        by_cases hbal : sender.balance < t0.amount
        · rw [if_pos hbal]
          exact .inl rfl
        rw [if_neg hbal]
        exact .inr ⟨t0, sender, recipient, rfl, hst, hfa, hta,
          not_lt.mp hlock, not_lt.mp hbal, rfl⟩

theorem findAccountById_id {s : LedgerState} {x : String} {a : Account}
    (h : findAccountById s x = some a) : a.id = x := by
  simpa using List.find?_some h

theorem findAccountById_mem {s : LedgerState} {x : String} {a : Account}
    (h : findAccountById s x = some a) : a ∈ s.accounts :=
  List.mem_of_find?_eq_some h

theorem findAccountById_save (s : LedgerState) (a : Account) (x : String) :
    findAccountById (saveAccount s a) x =
      (findAccountById s x).map (fun b => if b.id = a.id then a else b) := by
  show (s.accounts.map (fun b => if b.id = a.id then a else b)).find?
      (fun b => decide (b.id = x)) = _
  exact find?_acc_map_ids _ _
    (fun b => by by_cases hb : b.id = a.id <;> simp [hb]) x

theorem accountIdsNodup_save {s : LedgerState} (a : Account)
    (h : accountIdsNodup s) : accountIdsNodup (saveAccount s a) := by
  show ((s.accounts.map (fun b => if b.id = a.id then a else b)).map Account.id).Nodup
  rw [map_replace_map_ids]
  exact h

theorem optionAll_currency {o1 o2 : Option Account}
    (h : o1.map Account.currency = o2.map Account.currency) (cy : String) :
    o1.all (fun a => decide (a.currency = cy)) =
      o2.all (fun a => decide (a.currency = cy)) := by
  match o1, o2, h with
  | none, none, _ => rfl
  | some a, some b, h =>
    have h2 : a.currency = b.currency := Option.some.inj h
    show decide (a.currency = cy) = decide (b.currency = cy)
    rw [h2]
  | none, some _, h => cases h
  | some _, none, h => cases h

theorem findAccountById_save_currency (s : LedgerState) (a0 a2 : Account)
    (x : String) (ha0 : a0 ∈ s.accounts) (hnd : accountIdsNodup s)
    (hid : a2.id = a0.id) (hcur : a2.currency = a0.currency) :
    (findAccountById (saveAccount s a2) x).map Account.currency =
      (findAccountById s x).map Account.currency := by
  rw [findAccountById_save]
  match hfx : findAccountById s x with
  | none => rfl
  | some a =>
    show some (if a.id = a2.id then a2 else a).currency = some a.currency
    by_cases hb : a.id = a2.id
    · have hba : a = a0 :=
        eq_of_account_id_eq hnd (findAccountById_mem hfx) ha0 (by rw [hb, hid])
      rw [if_pos hb, hcur, hba]
    · rw [if_neg hb]

theorem execute_preserves (s : LedgerState) (txId : String)
    (hnd : accountIdsNodup s) (hwf : TxWellFormed s) :
    accountIdsNodup (executeSingleTransaction s txId).1 ∧
    TxWellFormed (executeSingleTransaction s txId).1 ∧
    (∀ c, currencyBalanceSum (executeSingleTransaction s txId).1 c =
       currencyBalanceSum s c) := by
  rcases execute_cases s txId with heq |
    ⟨t0, sender, recipient, hf, hst, hfa, hta, hlock, hbal, hs2⟩
  · rw [heq]
    exact ⟨hnd, hwf, fun c => rfl⟩
  · have htm : t0 ∈ s.transactions := List.mem_of_find?_eq_some hf
    have hsid : sender.id = t0.fromAccountId := findAccountById_id hfa
    have hrid : recipient.id = t0.toAccountId := findAccountById_id hta
    have hsmem : sender ∈ s.accounts := findAccountById_mem hfa
    have hrmem : recipient ∈ s.accounts := findAccountById_mem hta
    have hamt : 0 < t0.amount := (hwf t0 htm).1
    have hfromto : t0.fromAccountId ≠ t0.toAccountId := (hwf t0 htm).2.1
    have hscur : sender.currency = t0.currency := by
      have h2 := (hwf t0 htm).2.2.1
      rw [hfa] at h2
      simpa using h2
    have hrcur : recipient.currency = t0.currency := by
      have h2 := (hwf t0 htm).2.2.2
      rw [hta] at h2
      simpa using h2
    have hsrne : sender.id ≠ recipient.id := by rw [hsid, hrid]; exact hfromto
    rw [hs2]
    have hndF : accountIdsNodup (saveAccount (saveTransaction s { t0 with status := TransactionStatus.PROCESSING }) { sender with balance := sender.balance - t0.amount, locked := sender.locked - t0.amount }) :=
      accountIdsNodup_save _ hnd
    have hrmemF : recipient ∈ s.accounts.map (fun b => if b.id = ({ sender with balance := sender.balance - t0.amount, locked := sender.locked - t0.amount } : Account).id then { sender with balance := sender.balance - t0.amount, locked := sender.locked - t0.amount } else b) := by
      have hFrec : (if recipient.id = ({ sender with balance := sender.balance - t0.amount, locked := sender.locked - t0.amount } : Account).id then ({ sender with balance := sender.balance - t0.amount, locked := sender.locked - t0.amount } : Account) else recipient) = recipient :=
        if_neg (fun he => hsrne ((show recipient.id = sender.id from he).symm))
      rw [← hFrec]
      exact List.mem_map_of_mem _ hrmem
    have hmc : ∀ x, (findAccountById (saveAccount (saveAccount (saveTransaction s { t0 with status := TransactionStatus.PROCESSING }) { sender with balance := sender.balance - t0.amount, locked := sender.locked - t0.amount }) { recipient with balance := recipient.balance + t0.amount }) x).map Account.currency = (findAccountById s x).map Account.currency := by
      intro x
      rw [findAccountById_save_currency _ recipient { recipient with balance := recipient.balance + t0.amount } x hrmemF hndF rfl rfl]
      rw [findAccountById_save_currency (saveTransaction s { t0 with status := TransactionStatus.PROCESSING }) sender { sender with balance := sender.balance - t0.amount, locked := sender.locked - t0.amount } x hsmem hnd rfl rfl]
      rfl
    refine ⟨accountIdsNodup_save _ hndF, ?_, ?_⟩
    · intro t ht2
      obtain ⟨u, hu, rfl⟩ := List.mem_map.mp
        (show t ∈ s.transactions.map (fun u => if u.id = ({ t0 with status := TransactionStatus.PROCESSING } : Transaction).id then { t0 with status := TransactionStatus.PROCESSING } else u) from ht2)
      by_cases hcu : u.id = ({ t0 with status := TransactionStatus.PROCESSING } : Transaction).id
      · rw [if_pos hcu]
        refine ⟨hamt, hfromto, ?_, ?_⟩
        · rw [optionAll_currency (hmc _) _]
          exact (hwf t0 htm).2.2.1
        · rw [optionAll_currency (hmc _) _]
          exact (hwf t0 htm).2.2.2
      · rw [if_neg hcu]
        refine ⟨(hwf u hu).1, (hwf u hu).2.1, ?_, ?_⟩
        · rw [optionAll_currency (hmc _) _]
          exact (hwf u hu).2.2.1
        · rw [optionAll_currency (hmc _) _]
          exact (hwf u hu).2.2.2
    · intro c
      show balanceSumBy ((s.accounts.map (fun b => if b.id = ({ sender with balance := sender.balance - t0.amount, locked := sender.locked - t0.amount } : Account).id then { sender with balance := sender.balance - t0.amount, locked := sender.locked - t0.amount } else b)).map (fun b => if b.id = ({ recipient with balance := recipient.balance + t0.amount } : Account).id then { recipient with balance := recipient.balance + t0.amount } else b)) c = balanceSumBy s.accounts c
      have hndF2 : ((s.accounts.map (fun b => if b.id = ({ sender with balance := sender.balance - t0.amount, locked := sender.locked - t0.amount } : Account).id then { sender with balance := sender.balance - t0.amount, locked := sender.locked - t0.amount } else b)).map Account.id).Nodup := by
        rw [map_replace_map_ids]
        exact hnd
      rw [balanceSumBy_replace _ recipient { recipient with balance := recipient.balance + t0.amount } c hrmemF hndF2 rfl rfl]
      rw [balanceSumBy_replace _ sender { sender with balance := sender.balance - t0.amount, locked := sender.locked - t0.amount } c hsmem hnd rfl rfl]
      rw [hscur, hrcur]
      by_cases hc : t0.currency = c
      · rw [if_pos hc, if_pos hc]
        dsimp only
        ring
      · rw [if_neg hc, if_neg hc]
        ring

theorem executeMany_sum (txIds : List String) : ∀ (s : LedgerState),
    accountIdsNodup s → TxWellFormed s → ∀ c,
      currencyBalanceSum (executeMany s txIds) c = currencyBalanceSum s c := by
  induction txIds with
  | nil => intro s _ _ c; rfl
  | cons i rest ih =>
    intro s hnd hwf c
    have hp := execute_preserves s i hnd hwf
    have hstep : executeMany s (i :: rest) =
        executeMany (executeSingleTransaction s i).1 rest := rfl
    rw [hstep, ih _ hp.1 hp.2.1 c, hp.2.2 c]

/-- C1 (conservation): from a well-formed state, a call to
`executeSingleTransaction` that returns a row leaves the per-currency sum of
balances unchanged (the sender is debited and the recipient credited by the
same amount); a successful `submitTransfer` changes no `balance` field at
all; and any sequence of executions leaves every per-currency balance sum
unchanged. -/
theorem C1_conservation (s : LedgerState)
    (hnd : accountIdsNodup s) (hwf : TxWellFormed s) :
    (∀ txId s2 t, executeSingleTransaction s txId = (s2, some t) →
       ∀ c, currencyBalanceSum s2 c = currencyBalanceSum s c) ∧
    (∀ userId fromAddr toAddr amount currency description newTxId newSystemHash s2 t,
       submitTransfer s userId fromAddr toAddr amount currency description
         newTxId newSystemHash = .ok (s2, t) →
       s2.accounts.map (fun a => (a.id, a.balance)) =
         s.accounts.map (fun a => (a.id, a.balance))) ∧
    (∀ txIds c, currencyBalanceSum (executeMany s txIds) c =
       currencyBalanceSum s c) := by
  refine ⟨?_, ?_, fun txIds c => executeMany_sum txIds s hnd hwf c⟩
  · intro txId s2 t h c
    have hp := (execute_preserves s txId hnd hwf).2.2 c
    rw [h] at hp
    exact hp
  · intro userId fromAddr toAddr amount currency description newTxId newSystemHash s2 t h
    obtain ⟨sender, recipient, hpos, hne, hsender, hcur, hav, hrec, hrcur, ht, hs2⟩ :=
      submit_success_shape h
    rw [hs2]
    exact map_idbal_replace _ _ _ (List.mem_of_find?_eq_some hsender) hnd rfl rfl

/-- C1 witness: executing a funded concrete transfer preserves the NGN
balance sum. -/
theorem C1_conservation_witness :
    accountIdsNodup stateExecOK ∧ TxWellFormed stateExecOK ∧
    currencyBalanceSum (executeMany stateExecOK ["t1"]) "NGN" =
      currencyBalanceSum stateExecOK "NGN" :=
  ⟨by decide, by decide,
   (C1_conservation stateExecOK (by decide) (by decide)).2.2 ["t1"] "NGN"⟩

/-- C2 (lock discipline): starting from a state in which every account
satisfies `balance ≥ locked ≥ 0`, the invariant still holds after a
successful `submitTransfer` (which adds the amount to `locked` only when the
available balance covers it), after the durable effect of
`executeSingleTransaction` on any id (all failure branches roll back; the
debit/credit path subtracts the amount from both `balance` and `locked`), and
after `revertLockOnAccount` with any non-negative amount (the new lock is
clamped at zero). -/
theorem C2_lock_discipline (s : LedgerState) (hnd : accountIdsNodup s)
    (hld : LockDiscipline s) (hwf : TxWellFormed s) :
    (∀ userId fromAddr toAddr amount currency description newTxId newSystemHash s2 t,
       submitTransfer s userId fromAddr toAddr amount currency description
         newTxId newSystemHash = .ok (s2, t) → LockDiscipline s2) ∧
    (∀ txId, LockDiscipline (executeSingleTransaction s txId).1) ∧
    (∀ accountId amt, 0 ≤ amt →
       LockDiscipline (revertLockOnAccount s accountId amt)) := by
  refine ⟨?_, ?_, ?_⟩
  · intro userId fromAddr toAddr amount currency description newTxId newSystemHash s2 t h
    obtain ⟨sender, recipient, hpos, hne, hsender, hcur, hav, hrec, hrcur, ht, hs2⟩ :=
      submit_success_shape h
    have hsmem : sender ∈ s.accounts := List.mem_of_find?_eq_some hsender
    obtain ⟨hl0, hlb⟩ := hld sender hsmem
    rw [hs2]
    intro a ha
    obtain ⟨b, hb, rfl⟩ := List.mem_map.mp
      (show a ∈ s.accounts.map (fun b => if b.id = ({ sender with locked := sender.locked + amount, nonce := sender.nonce + 1 } : Account).id then { sender with locked := sender.locked + amount, nonce := sender.nonce + 1 } else b) from ha)
    by_cases hc : b.id = ({ sender with locked := sender.locked + amount, nonce := sender.nonce + 1 } : Account).id
    · rw [if_pos hc]
      dsimp only
      omega
    · rw [if_neg hc]
      exact hld b hb
  · intro txId
    rcases execute_cases s txId with heq |
      ⟨t0, sender, recipient, hf, hst, hfa, hta, hlock, hbal, hs2⟩
    · rw [heq]; exact hld
    · have htm : t0 ∈ s.transactions := List.mem_of_find?_eq_some hf
      have hsid : sender.id = t0.fromAccountId := findAccountById_id hfa
      have hrid : recipient.id = t0.toAccountId := findAccountById_id hta
      have hsmem : sender ∈ s.accounts := findAccountById_mem hfa
      have hrmem : recipient ∈ s.accounts := findAccountById_mem hta
      have hamt : 0 < t0.amount := (hwf t0 htm).1
      have hsrne : sender.id ≠ recipient.id := by
        rw [hsid, hrid]; exact (hwf t0 htm).2.1
      obtain ⟨hsl0, hslb⟩ := hld sender hsmem
      obtain ⟨hrl0, hrlb⟩ := hld recipient hrmem
      rw [hs2]
      intro a ha
      obtain ⟨b1, hb1, rfl⟩ := List.mem_map.mp
        (show a ∈ ((saveAccount (saveTransaction s { t0 with status := TransactionStatus.PROCESSING }) { sender with balance := sender.balance - t0.amount, locked := sender.locked - t0.amount }).accounts).map (fun b => if b.id = ({ recipient with balance := recipient.balance + t0.amount } : Account).id then { recipient with balance := recipient.balance + t0.amount } else b) from ha)
      obtain ⟨b, hb, rfl⟩ := List.mem_map.mp
        (show b1 ∈ s.accounts.map (fun b => if b.id = ({ sender with balance := sender.balance - t0.amount, locked := sender.locked - t0.amount } : Account).id then { sender with balance := sender.balance - t0.amount, locked := sender.locked - t0.amount } else b) from hb1)
      by_cases hc1 : b.id = ({ sender with balance := sender.balance - t0.amount, locked := sender.locked - t0.amount } : Account).id
      · rw [if_pos hc1]
        rw [if_neg (show ¬ ({ sender with balance := sender.balance - t0.amount, locked := sender.locked - t0.amount } : Account).id = ({ recipient with balance := recipient.balance + t0.amount } : Account).id from fun he => hsrne he)]
        dsimp only
        omega
      · rw [if_neg hc1]
        by_cases hc2 : b.id = ({ recipient with balance := recipient.balance + t0.amount } : Account).id
        · rw [if_pos hc2]
          dsimp only
          omega
        · rw [if_neg hc2]
          exact hld b hb
  · intro accountId amt hamt0
    unfold revertLockOnAccount
    match hfx : findAccountById s accountId with
    | none => exact hld
    | some acc =>
      dsimp only
      have haccmem : acc ∈ s.accounts := findAccountById_mem hfx
      have haccid : acc.id = accountId := findAccountById_id hfx
      obtain ⟨h1, h2⟩ := hld acc haccmem
      intro a ha
      obtain ⟨b, hb, rfl⟩ := List.mem_map.mp
        (show a ∈ s.accounts.map (fun b => if b.id = accountId then { b with locked := if acc.locked - amt < 0 then 0 else acc.locked - amt } else b) from ha)
      by_cases hc : b.id = accountId
      · rw [if_pos hc]
        have hbacc : b = acc := eq_of_account_id_eq hnd hb haccmem (by rw [hc, haccid])
        rw [hbacc]
        dsimp only
        by_cases hneg : acc.locked - amt < 0
        · rw [if_pos hneg]
          omega
        · rw [if_neg hneg]
          omega
      · rw [if_neg hc]
        exact hld b hb

/-- C2 witness: a concrete well-formed state stays lock-disciplined after one
execution. -/
theorem C2_lock_discipline_witness :
    accountIdsNodup stateExecOK ∧ LockDiscipline stateExecOK ∧
    TxWellFormed stateExecOK ∧
    LockDiscipline (executeSingleTransaction stateExecOK "t1").1 :=
  ⟨by decide, by decide, by decide,
   (C2_lock_discipline stateExecOK (by decide) (by decide) (by decide)).2.1 "t1"⟩
